import Mathlib

/-!
Verification of the `nhr` Go library (URL assembler, functional-options HTTP
request builder/executor, response decoders) against its specification.

Shallow embedding conventions:
* Go strings that are treated as text (hosts, paths, methods, header names)
  are Lean `String`s; strings whose byte-level content matters (query-string
  encoding) are byte lists `List Nat` with each byte `< 256`.
* A Go `panic` is an explicit `.error`/`.panicked` constructor, never a Lean
  `Option.none` silently; a Go function returning `nil` without panicking is
  a distinct constructor.
* External dependencies (net/url parsing, the HTTP transport, JSON
  marshalling) are parameters of the embedding, so every theorem quantifies
  over their behaviour; the library's own plumbing is translated literally.
-/

namespace Nhr

/-- One step of Go `strings.Contains`: `containsSeq sub s` is true iff `sub`
occurs contiguously inside `s` (byte/char list level). -/
def containsSeq (sub : List Char) : List Char → Bool
  | [] => sub.isPrefixOf ([] : List Char)
  | a :: t => sub.isPrefixOf (a :: t) || containsSeq sub t

/-- Go `strings.Contains(s, sub)`. -/
def strContains (s sub : String) : Bool :=
  containsSeq sub.toList s.toList

/-- Embedding of `MontageUrl(host, apiUrl string, pathParam ...interface{})`
from the URL-assembler source file.  The Go code indexes `apiUrl[0]` with no
length guard, so the empty `apiUrl` is a runtime panic (index out of range),
modelled as `.error`.  `string(apiUrl[0]) != "/"` compares the first byte
with the one-byte string `"/"`; since `/` is ASCII this is the same test as
comparing the first character, embedded as `apiUrl.take 1 != "/"`.  Path
parameters are taken already stringified (Go formats each with `%v`). -/
def MontageUrl (host apiUrl : String) (pathParam : List String) : Except String String :=
  if apiUrl = "" then
    .error "panic: runtime error: index out of range"
  else if apiUrl.take 1 != "/" || strContains apiUrl host then
    .ok ""
  else if pathParam = [] then
    .ok ("https://" ++ host ++ apiUrl)
  else
    .ok ("https://" ++ host ++ apiUrl ++ String.join (pathParam.map (fun v => "/" ++ v)))

/-- Embedding of `http.Cookie`; only identity matters to the library (cookies
are stored and attached verbatim), so two representative fields suffice. -/
structure Cookie where
  name : String
  value : String
deriving DecidableEq

/-- Embedding of the `HttpRequests` descriptor struct.  `Timeout` is
`time.Duration` in nanoseconds, embedded as `Nat`.  `Params` is the encoded
query string, kept at byte level (`List Nat`) because query encoding is
byte-oriented; all other string fields are textual. -/
structure HttpRequests where
  Method : String
  URL : String
  Headers : List (String × String)
  Cookies : List Cookie
  Timeout : Nat
  PostBody : String
  Params : List Nat

/-- Embedding of the `Option` functional-option type
(`func(*HttpRequests)`).  An option that panics (only `WithPostJsonBody`
can) is `.error` with the panic message. -/
abbrev NOption : Type := HttpRequests → Except String HttpRequests

/-- `WithHeaders`: replaces the whole header mapping. -/
def WithHeaders (headers : List (String × String)) : NOption :=
  fun req => .ok { req with Headers := headers }

/-- `WithTimeout`: replaces the timeout duration. -/
def WithTimeout (timeout : Nat) : NOption :=
  fun req => .ok { req with Timeout := timeout }

/-- `WithCookies`: replaces the cookie list. -/
def WithCookies (cookies : List Cookie) : NOption :=
  fun req => .ok { req with Cookies := cookies }

/-- `WithPostJsonBody`: stores the `json.Marshal` result of the given data as
the body, or panics with `"convert postBody to string error"` when the
marshal fails.  `json.Marshal` is external, so the option is parameterized
by its result. -/
def WithPostJsonBody (marshalled : Except String String) : NOption :=
  fun req =>
    match marshalled with
    | .error _ => .error "convert postBody to string error"
    | .ok s => .ok { req with PostBody := s }

/-- `WithPostStringBody`: stores the raw string body verbatim. -/
def WithPostStringBody (data : String) : NOption :=
  fun req => .ok { req with PostBody := data }

/-- Embedding of `url.URL` as far as the library touches it: `createRequest`
only ever rewrites `RawQuery`, so the remaining components are carried
opaquely.  `rawQuery` is byte-level to match `Params`. -/
structure NetURL where
  scheme : String
  host : String
  path : String
  rawQuery : List Nat
deriving DecidableEq

/-- The outbound `http.Request` as assembled by `createRequest`: method, the
(query-rewritten) URL, the body reader's contents, the headers set on it and
the cookies added in order.  Header-name canonicalisation and the
`URL.String()` round-trip through `http.NewRequest` are identity on the data
the library supplies and are elided. -/
structure Request where
  method : String
  url : NetURL
  body : String
  headers : List (String × String)
  cookies : List Cookie

/-- Outcome of `createRequest` up to (but not including) the network call:
a panic, the silent `nil` return after `http.NewRequest` fails, or a built
request. -/
inductive BuildResult where
  | panicked (msg : String)
  | nilResp
  | built (req : Request)

/-- Embedding of `*http.Response` as the decoders consume it: the status
code and the body stream, which either reads fully to bytes or fails. -/
structure Response where
  statusCode : Nat
  body : Except String (List Nat)

/-- Outcome of `createRequest`/`HttpCaller`: a panic, the `nil` response
pointer, or a response. -/
inductive ExecResult where
  | panicked (msg : String)
  | nilResp
  | ok (resp : Response)

/-- The external dependencies of the executor: `url.ParseRequestURI`,
the success/failure verdict of `http.NewRequest` (which otherwise
deterministically packages its arguments), and `http.DefaultClient.Do`. -/
structure Env where
  parseRequestURI : String → Except String NetURL
  newRequestOK : String → NetURL → String → Bool
  doCall : Request → Except String Response

/-- The request-assembly part of `createRequest`: parse the URL (panicking
on failure), overwrite `RawQuery` with `Params`, call `http.NewRequest`
(printing and returning `nil` on failure), set each header, add each
cookie. -/
def buildRequest (parse : String → Except String NetURL)
    (validReq : String → NetURL → String → Bool) (r : HttpRequests) : BuildResult :=
  match parse r.URL with
  | .error e => .panicked ("parse url requestUrl failed, err:" ++ e ++ "\n")
  | .ok urlObj =>
    if validReq r.Method { urlObj with rawQuery := r.Params } r.PostBody then
      .built { method := r.Method, url := { urlObj with rawQuery := r.Params },
               body := r.PostBody, headers := r.Headers, cookies := r.Cookies }
    else .nilResp

/-- Embedding of `createRequest`: assemble the request, then send it with
`http.DefaultClient.Do`, panicking on a transport error. -/
def createRequest (env : Env) (r : HttpRequests) : ExecResult :=
  match buildRequest env.parseRequestURI env.newRequestOK r with
  | .panicked msg => .panicked msg
  | .nilResp => .nilResp
  | .built req =>
    match env.doCall req with
    | .error e => .panicked ("send request error:" ++ e ++ "\n")
    | .ok resp => .ok resp

/-- The descriptor `HttpCaller` builds before applying options: uppercased
method, the URL as given, a 3-second (`3e9` ns) timeout and the default
`Content-Type: application/json` header mapping. -/
def initialRequest (method url : String) : HttpRequests :=
  { Method := method.toUpper
    URL := url
    Headers := [("Content-Type", "application/json")]
    Cookies := []
    Timeout := 3 * 1000000000
    PostBody := ""
    Params := [] }

/-- The option-application loop of `HttpCaller`: options run in the order
supplied; a panicking option aborts the run. -/
def applyOptions (req : HttpRequests) (options : List NOption) : Except String HttpRequests :=
  options.foldl (fun acc opt => acc.bind opt) (.ok req)

/-- Embedding of `HttpCaller`: build the initial descriptor, apply the
options in order, then `createRequest`. -/
def HttpCaller (env : Env) (method url : String) (options : List NOption) : ExecResult :=
  match applyOptions (initialRequest method url) options with
  | .error p => .panicked p
  | .ok req => createRequest env req

/-- A concrete parsed URL for witness instantiations. -/
def sampleURL : NetURL :=
  { scheme := "https", host := "example.com", path := "/api", rawQuery := [] }

/-- A concrete successful response (`200`, body `"{}"`) for witnesses. -/
def sampleResponse : Response :=
  { statusCode := 200, body := .ok [123, 125] }

/-- A concrete descriptor with the `HttpCaller` defaults and, in
particular, `Params = []`. -/
def sampleDescriptor : HttpRequests :=
  { Method := "GET", URL := "https://example.com/api"
    Headers := [("Content-Type", "application/json")]
    Cookies := [], Timeout := 3 * 1000000000, PostBody := "", Params := [] }

/-- The outbound request `createRequest` assembles from `sampleDescriptor`
under a parser returning `sampleURL`. -/
def sampleBuiltRequest : Request :=
  { method := "GET", url := sampleURL, body := ""
    headers := [("Content-Type", "application/json")], cookies := [] }

/-- Environment whose URL parser always fails. -/
def envParseFails : Env :=
  { parseRequestURI := fun _ => .error "bad url"
    newRequestOK := fun _ _ _ => true
    doCall := fun _ => .ok sampleResponse }

/-- Environment that parses, builds, and then fails at the transport. -/
def envTransportFails : Env :=
  { parseRequestURI := fun _ => .ok sampleURL
    newRequestOK := fun _ _ _ => true
    doCall := fun _ => .error "connection refused" }

/-- Environment in which everything succeeds. -/
def envOK : Env :=
  { parseRequestURI := fun _ => .ok sampleURL
    newRequestOK := fun _ _ _ => true
    doCall := fun _ => .ok sampleResponse }

/-- Environment in which `http.NewRequest` rejects every request (e.g. a
method string with invalid characters). -/
def envNewReqFails : Env :=
  { parseRequestURI := fun _ => .ok sampleURL
    newRequestOK := fun _ _ _ => false
    doCall := fun _ => .ok sampleResponse }

/-- Is an `Except` an error? -/
def isErr {ε α : Type} : Except ε α → Bool
  | .error _ => true
  | .ok _ => false

/-- Embedding of `responseToBytes`: a status code other than
`http.StatusOK` (200) is an error regardless of the body; otherwise the
body stream is read fully or its read error is wrapped.  The deferred
`Body.Close()` runs on every exit path; the `Bool` component records that
the body was closed. -/
def responseToBytes (resp : Response) : Except String (List Nat) × Bool :=
  if resp.statusCode ≠ 200 then
    (.error ("request status code not 200，actually status code is "
      ++ toString resp.statusCode), true)
  else
    match resp.body with
    | .error e => (.error ("read from response.Body failed:" ++ e), true)
    | .ok bs => (.ok bs, true)

/-- Embedding of `ResponseToStruct`, parameterized by `FastJsonUnMarshal`
at the target's shape (the JSON codec is an external library).  Go
populates the target in place; the embedding returns the populated
value. -/
def ResponseToStruct {T : Type} (unm : List Nat → Except String T) (resp : Response) :
    Except String T × Bool :=
  match responseToBytes resp with
  | (.error e, closed) => (.error ("response to bytes error:" ++ e), closed)
  | (.ok bs, closed) =>
    match unm bs with
    | .error e => (.error ("unMarshal response bytes slice error:" ++ e), closed)
    | .ok v => (.ok v, closed)

/-- Embedding of `ResponseToMap`, parameterized by the generic-mapping JSON
decoder.  No status-code check is performed; any decode failure (a failing
body stream or bytes that do not decode) yields `none`; the deferred close
runs on every path. -/
def ResponseToMap {M : Type} (dec : List Nat → Except String M) (resp : Response) :
    Option M × Bool :=
  match resp.body with
  | .error _ => (none, true)
  | .ok bs =>
    match dec bs with
    | .error _ => (none, true)
    | .ok m => (some m, true)

/-- `ResponseToStruct` as invoked through a possibly-`nil` `*http.Response`
pointer: with `nil` the deferred `Body.Close()` dereferences the nil
pointer and the call panics. -/
def ResponseToStructRef {T : Type} (unm : List Nat → Except String T)
    (resp : Option Response) : Except String (Except String T × Bool) :=
  match resp with
  | none => .error "panic: runtime error: invalid memory address or nil pointer dereference"
  | some r => .ok (ResponseToStruct unm r)

/-- `ResponseToMap` through a possibly-`nil` `*http.Response` pointer. -/
def ResponseToMapRef {M : Type} (dec : List Nat → Except String M)
    (resp : Option Response) : Except String (Option M × Bool) :=
  match resp with
  | none => .error "panic: runtime error: invalid memory address or nil pointer dereference"
  | some r => .ok (ResponseToMap dec r)

/-- A concrete "JSON decoder" for witnesses: a one-byte body decodes to
that byte, anything else is a decode error. -/
def decNat : List Nat → Except String Nat :=
  fun bs => match bs with
  | [b] => .ok b
  | _ => .error "invalid character"

/-- 404 response whose two-byte body `decNat` rejects. -/
def respBad : Response := { statusCode := 404, body := .ok [1, 2] }

/-- 404 response with a body `decNat` accepts. -/
def respNotOK : Response := { statusCode := 404, body := .ok [7] }

/-- 200 response with a body `decNat` accepts. -/
def resp200 : Response := { statusCode := 200, body := .ok [7] }

/-- Go strings are byte strings; query-string encoding is byte-oriented, so
it is modelled on byte lists (each byte `< 256`). -/
abbrev ByteStr : Type := List Nat

/-- Modelled from net/url (`upperhex`): the upper-case hex digit byte for a
value below 16. -/
def hexDigitUpper (d : Nat) : Nat :=
  if d < 10 then 48 + d else 55 + d

/-- Modelled from net/url: does `shouldEscape(b, encodeQueryComponent)`
leave the byte unescaped?  True exactly for ASCII alphanumerics and
`-`, `.`, `_`, `~`. -/
def isUnreservedQuery (b : Nat) : Bool :=
  (48 ≤ b && b ≤ 57) || (65 ≤ b && b ≤ 90) || (97 ≤ b && b ≤ 122) ||
    b == 45 || b == 46 || b == 95 || b == 126

/-- Modelled from net/url: `QueryEscape` of one byte — space becomes `+`
(43), unreserved bytes stay, every other byte becomes `%XX` (37 and two
upper-case hex digits). -/
def queryEscapeByte (b : Nat) : ByteStr :=
  if b == 32 then [43]
  else if isUnreservedQuery b then [b]
  else [37, hexDigitUpper (b / 16), hexDigitUpper (b % 16)]

/-- Modelled from net/url: `QueryEscape` over a byte string (escape each
byte in sequence). -/
def queryEscape : ByteStr → ByteStr
  | [] => []
  | b :: t => queryEscapeByte b ++ queryEscape t

/-- Lexicographic byte-string order, as `sort.Strings` orders Go strings. -/
def bytesLe : ByteStr → ByteStr → Bool
  | [], _ => true
  | _ :: _, [] => false
  | a :: s, b :: t => if a < b then true else if b < a then false else bytesLe s t

/-- The key/value pairs sorted by key (`url.Values.Encode` sorts its
keys with `sort.Strings`). -/
def sortPairs (params : List (ByteStr × ByteStr)) : List (ByteStr × ByteStr) :=
  params.mergeSort (fun p q => bytesLe p.1 q.1)

/-- One encoded pair: `QueryEscape(k) + "=" + QueryEscape(v)`
(61 is `=`). -/
def encodePair (p : ByteStr × ByteStr) : ByteStr :=
  queryEscape p.1 ++ 61 :: queryEscape p.2

/-- Join byte strings with a separator byte. -/
def joinSep (sep : Nat) : List ByteStr → ByteStr
  | [] => []
  | [p] => p
  | p :: q :: ps => p ++ sep :: joinSep sep (q :: ps)

/-- Modelled from net/url: `url.Values.Encode()` — keys sorted, each pair
escaped, pairs joined with `&` (38).  `WithParams` builds the `url.Values`
by `Set`ting each key of a Go map; the map's keys are unique, so the
`Values` entries are exactly the map's pairs, and the map's (random)
iteration order is irrelevant because `Encode` sorts — proved below as
permutation invariance. -/
def valuesEncode (params : List (ByteStr × ByteStr)) : ByteStr :=
  joinSep 38 ((sortPairs params).map encodePair)

/-- Embedding of the `WithParams` option: store the encoded query
string. -/
def WithParams (params : List (ByteStr × ByteStr)) : NOption :=
  fun req => .ok { req with Params := valuesEncode params }

/-- Modelled from net/url (`unhex`): the value of a hex digit byte,
accepting both cases. -/
def unhex (b : Nat) : Option Nat :=
  if 48 ≤ b ∧ b ≤ 57 then some (b - 48)
  else if 97 ≤ b ∧ b ≤ 102 then some (b - 97 + 10)
  else if 65 ≤ b ∧ b ≤ 70 then some (b - 65 + 10)
  else none

/-- Modelled from net/url: `QueryUnescape` — `%XX` decodes to the byte,
`+` (43) decodes to space (32), other bytes stay; a truncated or invalid
escape fails. -/
def queryUnescape : ByteStr → Option ByteStr
  | [] => some []
  | b :: t =>
    if b == 37 then
      match t with
      | h1 :: h2 :: t2 =>
        match unhex h1, unhex h2, queryUnescape t2 with
        | some d1, some d2, some r => some ((16 * d1 + d2) :: r)
        | _, _, _ => none
      | _ => none
    else if b == 43 then (queryUnescape t).map (fun r => 32 :: r)
    else (queryUnescape t).map (fun r => b :: r)

/-- Go `strings.Cut(seg, "=")` at byte level: the part before the first
`=` and the part after it (the whole string and `[]` when absent). -/
def cutEq : ByteStr → ByteStr × ByteStr
  | [] => ([], [])
  | b :: t => if b == 61 then ([], t) else (b :: (cutEq t).1, (cutEq t).2)

/-- Split a byte string on a separator byte (`strings.Split`
semantics). -/
def splitOnByte (sep : Nat) : ByteStr → List ByteStr
  | [] => [[]]
  | b :: t =>
    match splitOnByte sep t with
    | [] => [[b]]
    | h :: r => if b == sep then [] :: h :: r else (b :: h) :: r

/-- One `key=value` segment of `ParseQuery`. -/
def parsePair (seg : ByteStr) : Option (ByteStr × ByteStr) :=
  match queryUnescape (cutEq seg).1, queryUnescape (cutEq seg).2 with
  | some k, some v => some (k, v)
  | _, _ => none

/-- All segments of `ParseQuery`, in order. -/
def parsePairs : List ByteStr → Option (List (ByteStr × ByteStr))
  | [] => some []
  | seg :: rest =>
    match parsePair seg, parsePairs rest with
    | some p, some ps => some (p :: ps)
    | _, _ => none

/-- Modelled from net/url: `ParseQuery`, returned as the list of decoded
key/value pairs in occurrence order (Go collects them into a multimap;
the pair list carries the same data). -/
def parseQuery (s : ByteStr) : Option (List (ByteStr × ByteStr)) :=
  if s.isEmpty then some [] else parsePairs (splitOnByte 38 s)

/-! ### End of definitions (more definitions are inserted above this line) -/

end Nhr

namespace Nhr

/-! ### Theorems -/

/-- C2: for every `host` and every `apiUrl` that starts with `"/"` and does
not contain `host` as a substring, `MontageUrl` with zero path segments
returns `"https://" ++ host ++ apiUrl`, and with any list of segments it
returns that zero-segment result with `"/" ++ segment` appended once per
segment, in order. -/
theorem montageUrl_valid (host apiUrl : String) (ps : List String)
    (h1 : apiUrl.take 1 = "/") (h2 : strContains apiUrl host = false) :
    MontageUrl host apiUrl [] = .ok ("https://" ++ host ++ apiUrl) ∧
    MontageUrl host apiUrl ps =
      .ok ("https://" ++ host ++ apiUrl ++ String.join (ps.map (fun v => "/" ++ v))) := by
  have hne : apiUrl ≠ "" := by
    intro h
    rw [h] at h1
    exact absurd h1 (by decide)
  refine ⟨?_, ?_⟩ <;> rw [MontageUrl, if_neg hne]
  · simp [h1, h2]
  · rcases Decidable.em (ps = []) with hps | hps
    · subst hps; simp [h1, h2, String.join]
    · simp [h1, h2, hps]

/-- C1 (amended): for every `host` and every *nonempty* `apiUrl` that either
does not start with `"/"` or contains `host` as a substring, `MontageUrl`
returns the empty string, with no error and no panic. -/
theorem montageUrl_guard (host apiUrl : String) (ps : List String)
    (hne : apiUrl ≠ "")
    (h : apiUrl.take 1 ≠ "/" ∨ strContains apiUrl host = true) :
    MontageUrl host apiUrl ps = .ok "" := by
  rw [MontageUrl, if_neg hne, if_pos]
  rcases h with h | h
  · simp [h]
  · simp [h]

/-- C1 counterexample: with the empty `apiUrl` (which does not start with
`"/"`), `MontageUrl` does not return the empty string — `apiUrl[0]` panics
with an index-out-of-range runtime error. -/
theorem montageUrl_empty_apiUrl_panics :
    MontageUrl "example.com" "" ["42"] =
      Except.error "panic: runtime error: index out of range" ∧
    MontageUrl "example.com" "" ["42"] ≠ Except.ok "" := by
  constructor
  · simp [MontageUrl]
  · intro h
    simp [MontageUrl] at h

/-- C1 witness for the amended theorem: `apiUrl = "x"` does not start with
`"/"`, and the result is the empty string. -/
theorem montageUrl_guard_witness :
    MontageUrl "example.com" "x" [] = .ok "" :=
  montageUrl_guard "example.com" "x" [] (by decide) (Or.inl (by decide))

/-- C2 witness at a concrete host, path and segment list. -/
theorem montageUrl_valid_witness :
    MontageUrl "example.com" "/api" ["334", "456"] =
      .ok ("https://" ++ "example.com" ++ "/api" ++
        String.join (["334", "456"].map (fun v => "/" ++ v))) :=
  (montageUrl_valid "example.com" "/api" ["334", "456"] (by decide) (by decide)).2

end Nhr

namespace Nhr

/-- C5: `WithHeaders` has full-replace semantics: applying `WithHeaders h1`
then `WithHeaders h2` (directly, or as the option list of `HttpCaller`)
leaves the descriptor's header mapping equal to `h2` exactly — nothing from
`h1` or from the default `Content-Type` entry survives. -/
theorem withHeaders_full_replace (h1 h2 : List (String × String)) (r : HttpRequests)
    (m u : String) :
    (WithHeaders h1 r).bind (WithHeaders h2) = .ok { r with Headers := h2 } ∧
    (applyOptions (initialRequest m u) [WithHeaders h1, WithHeaders h2]).map
      (fun d => d.Headers) = .ok h2 :=
  ⟨rfl, rfl⟩

/-- C9: the configured timeout is inert.  `WithTimeout` writes the
descriptor's `Timeout` field (whose default is 3 seconds), but neither
request assembly nor execution reads it: the outcome — for every
environment, so in particular the constructed outbound request — is
unchanged by any timeout, and appending a `WithTimeout` option to any
option list leaves `HttpCaller`'s behaviour identical. -/
theorem timeout_inert (env : Env) (r : HttpRequests) (t : Nat) (m u : String)
    (opts : List NOption) :
    WithTimeout t r = .ok { r with Timeout := t } ∧
    (initialRequest m u).Timeout = 3 * 1000000000 ∧
    buildRequest env.parseRequestURI env.newRequestOK { r with Timeout := t } =
      buildRequest env.parseRequestURI env.newRequestOK r ∧
    createRequest env { r with Timeout := t } = createRequest env r ∧
    HttpCaller env m u (opts ++ [WithTimeout t]) = HttpCaller env m u opts := by
  refine ⟨rfl, rfl, rfl, rfl, ?_⟩
  simp only [HttpCaller, applyOptions, List.foldl_append]
  cases h : List.foldl (fun acc opt => acc.bind opt) (Except.ok (initialRequest m u)) opts with
  | error e => rfl
  | ok r' => rfl

/-- C8: the three unrecoverable failure points panic (they do not return an
error value): a JSON-marshal failure inside `WithPostJsonBody`, a URL that
`url.ParseRequestURI` rejects, and a transport error from
`http.DefaultClient.Do`. -/
theorem fatal_failure_points (env : Env) (r : HttpRequests) (e : String) :
    WithPostJsonBody (.error e) r = .error "convert postBody to string error" ∧
    (env.parseRequestURI r.URL = .error e →
      createRequest env r = .panicked ("parse url requestUrl failed, err:" ++ e ++ "\n")) ∧
    (∀ req, buildRequest env.parseRequestURI env.newRequestOK r = .built req →
      env.doCall req = .error e →
      createRequest env r = .panicked ("send request error:" ++ e ++ "\n")) := by
  refine ⟨rfl, fun h => ?_, fun req hb hd => ?_⟩
  · simp [createRequest, buildRequest, h]
  · simp [createRequest, hb, hd]

/-- C8 witness, exercising each of the three failure points at concrete
inputs. -/
theorem fatal_failure_points_witness :
    WithPostJsonBody (.error "unsupported value") sampleDescriptor =
      .error "convert postBody to string error" ∧
    createRequest envParseFails sampleDescriptor =
      .panicked "parse url requestUrl failed, err:bad url\n" ∧
    createRequest envTransportFails sampleDescriptor =
      .panicked "send request error:connection refused\n" := by
  refine ⟨(fatal_failure_points envParseFails sampleDescriptor "unsupported value").1, ?_, ?_⟩
  · exact (fatal_failure_points envParseFails sampleDescriptor "bad url").2.1 rfl
  · exact (fatal_failure_points envTransportFails sampleDescriptor "connection refused").2.2
      sampleBuiltRequest rfl rfl

/-- C7: whenever the URL string parses, `createRequest` overwrites the
parsed URL's query component with the descriptor's `Params` (even when
`Params` is empty): every built request carries `rawQuery = Params`, and
the outcome is unchanged if the parser had reported any other query
component on the caller-supplied URL. -/
theorem createRequest_overwrites_query (pf : String → Except String NetURL)
    (validReq : String → NetURL → String → Bool) (r : HttpRequests) (u : NetURL)
    (q : List Nat) (h : pf r.URL = .ok u) :
    (∀ req, buildRequest pf validReq r = .built req →
      req.url = { u with rawQuery := r.Params }) ∧
    buildRequest (fun s => if s = r.URL then .ok { u with rawQuery := q } else pf s)
        validReq r =
      buildRequest pf validReq r := by
  constructor
  · intro req hreq
    simp only [buildRequest, h] at hreq
    by_cases hv : validReq r.Method { u with rawQuery := r.Params } r.PostBody = true
    · rw [if_pos hv] at hreq
      injection hreq with h2
      exact h2 ▸ rfl
    · rw [if_neg hv] at hreq
      exact BuildResult.noConfusion hreq
  · simp [buildRequest, h]

/-- C7 witness: a descriptor with empty `Params` and a caller URL whose
parse carries the query `"?"` (byte 63); the stale query is discarded. -/
theorem createRequest_overwrites_query_witness :
    buildRequest
        (fun s => if s = sampleDescriptor.URL then .ok { sampleURL with rawQuery := [63] }
                  else envOK.parseRequestURI s)
        envOK.newRequestOK sampleDescriptor =
      buildRequest envOK.parseRequestURI envOK.newRequestOK sampleDescriptor :=
  (createRequest_overwrites_query envOK.parseRequestURI envOK.newRequestOK
    sampleDescriptor sampleURL [63] rfl).2

end Nhr

namespace Nhr

/-- C3: `ResponseToStruct` errors exactly when the status code is not 200
(regardless of body content), or the body cannot be read, or the bytes do
not unmarshal at the target's shape; otherwise it returns the decoded
value; and in every case the body is closed. -/
theorem responseToStruct_spec {T : Type} (unm : List Nat → Except String T)
    (resp : Response) :
    (ResponseToStruct unm resp).2 = true ∧
    (isErr (ResponseToStruct unm resp).1 = true ↔
      resp.statusCode ≠ 200 ∨ isErr resp.body = true ∨
        ∃ bs, resp.body = .ok bs ∧ isErr (unm bs) = true) ∧
    (∀ bs v, resp.statusCode = 200 → resp.body = .ok bs → unm bs = .ok v →
      (ResponseToStruct unm resp).1 = .ok v) := by
  by_cases hs : resp.statusCode = 200
  · rcases hb : resp.body with e | bs
    · refine ⟨?_, ?_, ?_⟩ <;>
        simp [ResponseToStruct, responseToBytes, isErr, hs, hb]
    · rcases hu : unm bs with eu | v
      · refine ⟨?_, ?_, ?_⟩
        · simp [ResponseToStruct, responseToBytes, isErr, hs, hb, hu]
        · simp [ResponseToStruct, responseToBytes, isErr, hs, hb, hu]
        · intro bs1 v h200 hb1 hu1
          injection hb1 with hb1
          subst hb1
          rw [hu] at hu1
          exact Except.noConfusion hu1
      · refine ⟨?_, ?_, ?_⟩
        · simp [ResponseToStruct, responseToBytes, isErr, hs, hb, hu]
        · simp [ResponseToStruct, responseToBytes, isErr, hs, hb, hu]
        · intro bs1 v1 h200 hb1 hu1
          injection hb1 with hb1
          subst hb1
          rw [hu] at hu1
          injection hu1 with hu1
          subst hu1
          simp [ResponseToStruct, responseToBytes, isErr, hs, hb, hu]
  · refine ⟨?_, ?_, ?_⟩ <;>
      simp [ResponseToStruct, responseToBytes, isErr, hs]

/-- C3 witness: a 200 response with a decodable body yields the value; a
404 response yields an error. -/
theorem responseToStruct_spec_witness :
    (ResponseToStruct decNat resp200).1 = .ok 7 ∧
    isErr (ResponseToStruct decNat respNotOK).1 = true := by
  constructor
  · exact (responseToStruct_spec decNat resp200).2.2 [7] 7 rfl rfl rfl
  · exact (responseToStruct_spec decNat respNotOK).2.1.mpr (Or.inl (by decide))

/-- C4: `ResponseToMap` never checks the status code (the result is
invariant under changing it, so a non-200 response with a decodable body
still yields the mapping), returns `none` — not an error, and the
translation is total, so no panic — on any decode failure, and always
closes the body. -/
theorem responseToMap_spec {M : Type} (dec : List Nat → Except String M)
    (resp : Response) :
    (ResponseToMap dec resp).2 = true ∧
    (∀ s, (ResponseToMap dec { resp with statusCode := s }).1 =
      (ResponseToMap dec resp).1) ∧
    ((isErr resp.body = true ∨ ∃ bs, resp.body = .ok bs ∧ isErr (dec bs) = true) →
      (ResponseToMap dec resp).1 = none) ∧
    (∀ s bs m, resp.body = .ok bs → dec bs = .ok m →
      (ResponseToMap dec { resp with statusCode := s }).1 = some m) := by
  refine ⟨?_, fun s => rfl, ?_, ?_⟩
  · rcases hb : resp.body with e | bs
    · simp [ResponseToMap, hb]
    · rcases hd : dec bs with e | m <;> simp [ResponseToMap, hb, hd]
  · intro h
    rcases hb : resp.body with e | bs
    · simp [ResponseToMap, hb]
    · rcases h with h | ⟨bs', hbs', hderr⟩
      · rw [hb] at h
        exact absurd h (by simp [isErr])
      · rw [hb] at hbs'
        injection hbs' with hbs'
        subst hbs'
        rcases hd : dec bs with e | m
        · simp [ResponseToMap, hb, hd]
        · rw [hd] at hderr
          exact absurd hderr (by simp [isErr])
  · intro s bs m hb hd
    simp [ResponseToMap, hb, hd]

/-- C4 witness: an undecodable body gives `none`; a 404 (status changed to
500) response with a decodable body still decodes. -/
theorem responseToMap_spec_witness :
    (ResponseToMap decNat respBad).1 = none ∧
    (ResponseToMap decNat { respNotOK with statusCode := 500 }).1 = some 7 := by
  constructor
  · exact (responseToMap_spec decNat respBad).2.2.1 (Or.inr ⟨[1, 2], rfl, rfl⟩)
  · exact (responseToMap_spec decNat respNotOK).2.2.2 500 [7] 7 rfl rfl

/-- C10: the fourth failure point has a different contract from the three
fatal ones: when `http.NewRequest` rejects the (parsed) request,
`createRequest` returns `nil` — no panic, no error value — so `HttpCaller`
returns a nil response pointer, and passing that `nil` to either decoder
dereferences the nil pointer (a panic). -/
theorem newRequest_failure_nil_response (env : Env) (r : HttpRequests) (u : NetURL)
    (hparse : env.parseRequestURI r.URL = .ok u)
    (hnew : env.newRequestOK r.Method { u with rawQuery := r.Params } r.PostBody = false) :
    createRequest env r = .nilResp ∧
    (∀ m url opts, applyOptions (initialRequest m url) opts = .ok r →
      HttpCaller env m url opts = .nilResp) ∧
    (∀ (T : Type) (unm : List Nat → Except String T),
      ResponseToStructRef unm none =
        .error "panic: runtime error: invalid memory address or nil pointer dereference") ∧
    (∀ (M : Type) (dec : List Nat → Except String M),
      ResponseToMapRef dec none =
        .error "panic: runtime error: invalid memory address or nil pointer dereference") := by
  have hc : createRequest env r = .nilResp := by
    simp [createRequest, buildRequest, hparse, hnew]
  refine ⟨hc, fun m url opts hopts => ?_, fun T unm => rfl, fun M dec => rfl⟩
  simp [HttpCaller, hopts, hc]

/-- C10 witness: an environment whose `http.NewRequest` always fails. -/
theorem newRequest_failure_nil_response_witness :
    createRequest envNewReqFails sampleDescriptor = .nilResp ∧
    ResponseToStructRef decNat none =
      .error "panic: runtime error: invalid memory address or nil pointer dereference" := by
  have h := newRequest_failure_nil_response envNewReqFails sampleDescriptor sampleURL rfl rfl
  exact ⟨h.1, h.2.2.1 Nat decNat⟩

end Nhr

namespace Nhr

/-- Head comparison unfolding for `bytesLe`. -/
theorem bytesLe_cons_iff (x y : Nat) (s t : ByteStr) :
    bytesLe (x :: s) (y :: t) = true ↔ x < y ∨ (x = y ∧ bytesLe s t = true) := by
  simp only [bytesLe]
  rcases Nat.lt_trichotomy x y with h | h | h
  · simp [h]
  · subst h
    simp [Nat.lt_irrefl]
  · rw [if_neg (by omega : ¬ x < y), if_pos h]
    constructor
    · intro hfalse
      exact absurd hfalse (by simp)
    · intro hor
      exfalso
      rcases hor with h' | ⟨h', _⟩ <;> omega

/-- `bytesLe` is total. -/
theorem bytesLe_total : ∀ a b : ByteStr, (bytesLe a b || bytesLe b a) = true := by
  intro a
  induction a with
  | nil => intro b; simp [bytesLe]
  | cons x s ih =>
    intro b
    cases b with
    | nil => simp [bytesLe]
    | cons y t =>
      rcases Nat.lt_trichotomy x y with h | h | h
      · simp [bytesLe_cons_iff, h]
      · subst h
        rcases Bool.or_eq_true_iff.mp (ih t) with h' | h'
        · simp [bytesLe_cons_iff, h']
        · simp [bytesLe_cons_iff, h']
      · simp [bytesLe_cons_iff, h]

/-- `bytesLe` is transitive. -/
theorem bytesLe_trans : ∀ a b c : ByteStr,
    bytesLe a b = true → bytesLe b c = true → bytesLe a c = true := by
  intro a
  induction a with
  | nil => intro b c _ _; rfl
  | cons x s ih =>
    intro b c hab hbc
    cases b with
    | nil => exact absurd hab (by simp [bytesLe])
    | cons y t =>
      cases c with
      | nil => exact absurd hbc (by simp [bytesLe])
      | cons z u =>
        rw [bytesLe_cons_iff] at hab hbc ⊢
        rcases hab with h1 | ⟨h1, h1'⟩
        · rcases hbc with h2 | ⟨h2, h2'⟩
          · exact Or.inl (Nat.lt_trans h1 h2)
          · exact Or.inl (h2 ▸ h1)
        · rcases hbc with h2 | ⟨h2, h2'⟩
          · exact Or.inl (h1 ▸ h2)
          · exact Or.inr ⟨h1.trans h2, ih t u h1' h2'⟩

/-- `bytesLe` is antisymmetric. -/
theorem bytesLe_antisymm : ∀ a b : ByteStr,
    bytesLe a b = true → bytesLe b a = true → a = b := by
  intro a
  induction a with
  | nil =>
    intro b hab hba
    cases b with
    | nil => rfl
    | cons y t => exact absurd hba (by simp [bytesLe])
  | cons x s ih =>
    intro b hab hba
    cases b with
    | nil => exact absurd hab (by simp [bytesLe])
    | cons y t =>
      rw [bytesLe_cons_iff] at hab hba
      rcases hab with h1 | ⟨h1, h1'⟩
      · rcases hba with h2 | ⟨h2, h2'⟩
        · exact absurd h2 (Nat.lt_asymm h1)
        · exact absurd h1 (by omega)
      · rcases hba with h2 | ⟨h2, h2'⟩
        · exact absurd h2 (by omega)
        · cases h1
          rw [ih t h1' h2']

/-- `sortPairs` permutes its input. -/
theorem sortPairs_perm (l : List (ByteStr × ByteStr)) : (sortPairs l).Perm l :=
  List.mergeSort_perm l _

/-- `sortPairs` sorts by key. -/
theorem sortPairs_sorted (l : List (ByteStr × ByteStr)) :
    (sortPairs l).Pairwise (fun p q => bytesLe p.1 q.1 = true) :=
  List.sorted_mergeSort
    (fun a b c hab hbc => bytesLe_trans a.1 b.1 c.1 hab hbc)
    (fun a b => bytesLe_total a.1 b.1)
    l

/-- Two key-sorted lists that are permutations of each other and have
pairwise-distinct keys are equal. -/
theorem sorted_perm_eq_of_nodup_keys :
    ∀ l₁ l₂ : List (ByteStr × ByteStr), l₁.Perm l₂ →
      (l₁.map Prod.fst).Nodup →
      l₁.Pairwise (fun p q => bytesLe p.1 q.1 = true) →
      l₂.Pairwise (fun p q => bytesLe p.1 q.1 = true) →
      l₁ = l₂ := by
  intro l₁
  induction l₁ with
  | nil =>
    intro l₂ hp _ _ _
    exact hp.nil_eq
  | cons a t ih =>
    intro l₂ hp hnd hs₁ hs₂
    cases l₂ with
    | nil => exact absurd hp.symm.nil_eq (by simp)
    | cons b u =>
      by_cases hab : a = b
      · subst hab
        rw [ih u hp.cons_inv ((List.nodup_cons.mp hnd).2)
          ((List.pairwise_cons.mp hs₁).2) ((List.pairwise_cons.mp hs₂).2)]
      · have hbmem : b ∈ a :: t := hp.symm.subset (List.mem_cons_self b u)
        have hamem : a ∈ b :: u := hp.subset (List.mem_cons_self a t)
        have hbt : b ∈ t := by
          rcases List.mem_cons.mp hbmem with h | h
          · exact absurd h.symm hab
          · exact h
        have hau : a ∈ u := by
          rcases List.mem_cons.mp hamem with h | h
          · exact absurd h hab
          · exact h
        have h1 : bytesLe a.1 b.1 = true := (List.pairwise_cons.mp hs₁).1 b hbt
        have h2 : bytesLe b.1 a.1 = true := (List.pairwise_cons.mp hs₂).1 a hau
        have hkey : a.1 = b.1 := bytesLe_antisymm a.1 b.1 h1 h2
        exact absurd
          (List.inj_on_of_nodup_map hnd (List.mem_cons_self a t) hbmem hkey) hab

/-- Determinism of `valuesEncode`: two pair lists representing the same Go
map (permutations, keys unique) encode to the same string. -/
theorem valuesEncode_perm_invariant (l₁ l₂ : List (ByteStr × ByteStr))
    (hperm : l₁.Perm l₂) (hnd : (l₁.map Prod.fst).Nodup) :
    valuesEncode l₂ = valuesEncode l₁ := by
  have h : sortPairs l₂ = sortPairs l₁ := by
    apply sorted_perm_eq_of_nodup_keys
    · exact (sortPairs_perm l₂).trans (hperm.symm.trans (sortPairs_perm l₁).symm)
    · have hmap : ((sortPairs l₂).map Prod.fst).Perm (l₁.map Prod.fst) :=
        ((sortPairs_perm l₂).trans hperm.symm).map Prod.fst
      exact hmap.nodup_iff.mpr hnd
    · exact sortPairs_sorted l₂
    · exact sortPairs_sorted l₁
  rw [valuesEncode, valuesEncode, h]

end Nhr

namespace Nhr

/-- Hex-digit bytes are never `&` (38) or `=` (61). -/
theorem hexDigitUpper_sep_free (d : Nat) :
    hexDigitUpper d ≠ 38 ∧ hexDigitUpper d ≠ 61 := by
  rw [hexDigitUpper]
  split <;> omega

/-- An unreserved byte is not `%`, `+` or space. -/
theorem isUnreservedQuery_ne (b : Nat) (h : isUnreservedQuery b = true) :
    b ≠ 37 ∧ b ≠ 43 ∧ b ≠ 32 := by
  simp only [isUnreservedQuery, Bool.or_eq_true, Bool.and_eq_true,
    decide_eq_true_eq, beq_iff_eq] at h
  omega

/-- No byte of a one-byte escape is `&` (38) or `=` (61). -/
theorem queryEscapeByte_sep_free (b : Nat) :
    ∀ x ∈ queryEscapeByte b, x ≠ 38 ∧ x ≠ 61 := by
  intro x hx
  rw [queryEscapeByte] at hx
  split at hx
  · simp only [List.mem_singleton] at hx
    subst hx
    exact ⟨by decide, by decide⟩
  · split at hx
    · rename_i hun
      simp only [List.mem_singleton] at hx
      subst hx
      constructor
      · intro h
        rw [h] at hun
        exact absurd hun (by decide)
      · intro h
        rw [h] at hun
        exact absurd hun (by decide)
    · simp only [List.mem_cons, List.mem_singleton, List.not_mem_nil, or_false] at hx
      rcases hx with h | h | h
      · subst h; exact ⟨by decide, by decide⟩
      · subst h; exact hexDigitUpper_sep_free (b / 16)
      · subst h; exact hexDigitUpper_sep_free (b % 16)

/-- No byte of an escaped string is `&` (38) or `=` (61). -/
theorem queryEscape_sep_free (s : ByteStr) :
    ∀ x ∈ queryEscape s, x ≠ 38 ∧ x ≠ 61 := by
  induction s with
  | nil => intro x hx; simp [queryEscape] at hx
  | cons b t ih =>
    intro x hx
    rw [queryEscape] at hx
    rcases List.mem_append.mp hx with h | h
    · exact queryEscapeByte_sep_free b x h
    · exact ih x h

/-- `unhex` inverts `hexDigitUpper` on digit values. -/
theorem unhex_hexDigitUpper (d : Nat) (hd : d < 16) :
    unhex (hexDigitUpper d) = some d := by
  interval_cases d <;> decide

/-- `QueryUnescape` inverts `QueryEscape` on genuine byte strings. -/
theorem queryUnescape_escape (s : ByteStr) (hs : ∀ b ∈ s, b < 256) :
    queryUnescape (queryEscape s) = some s := by
  induction s with
  | nil => rfl
  | cons b t ih =>
    have hb : b < 256 := hs b (List.mem_cons_self b t)
    have ht : queryUnescape (queryEscape t) = some t :=
      ih (fun x hx => hs x (List.mem_cons_of_mem b hx))
    by_cases h32 : b = 32
    · subst h32
      have he : queryEscapeByte 32 = [43] := rfl
      rw [queryEscape, he]
      rw [queryUnescape.eq_def]
      simp [ht]
    · by_cases hun : isUnreservedQuery b = true
      · have he : queryEscapeByte b = [b] := by
          rw [queryEscapeByte, if_neg (by simp [h32]), if_pos hun]
        have hne := isUnreservedQuery_ne b hun
        rw [queryEscape, he]
        rw [queryUnescape.eq_def]
        simp [beq_iff_eq, hne.1, hne.2.1, ht]
      · have he : queryEscapeByte b =
            [37, hexDigitUpper (b / 16), hexDigitUpper (b % 16)] := by
          rw [queryEscapeByte, if_neg (by simp [h32]), if_neg hun]
        rw [queryEscape, he]
        rw [queryUnescape.eq_def]
        simp [ht, unhex_hexDigitUpper (b / 16) (by omega),
          unhex_hexDigitUpper (b % 16) (by omega),
          (by omega : 16 * (b / 16) + b % 16 = b)]

end Nhr

namespace Nhr

/-- `cutEq` splits at an explicit `=` when the prefix is `=`-free. -/
theorem cutEq_append (a b : ByteStr) (ha : ∀ x ∈ a, x ≠ 61) :
    cutEq (a ++ 61 :: b) = (a, b) := by
  induction a with
  | nil => simp [cutEq]
  | cons x s ih =>
    have hx : x ≠ 61 := ha x (List.mem_cons_self x s)
    have hs2 : ∀ y ∈ s, y ≠ 61 := fun y hy => ha y (List.mem_cons_of_mem x hy)
    simp only [List.cons_append]
    simp [cutEq, beq_iff_eq, hx, ih hs2]

/-- `splitOnByte` never returns the empty list. -/
theorem splitOnByte_ne_nil (sep : Nat) (s : ByteStr) : splitOnByte sep s ≠ [] := by
  induction s with
  | nil => simp [splitOnByte]
  | cons b t ih =>
    rw [splitOnByte]
    cases h : splitOnByte sep t with
    | nil => simp
    | cons hd r =>
      by_cases hb : (b == sep) = true
      · simp [hb]
      · simp [hb]

/-- Splitting a separator-free string is the identity (one chunk). -/
theorem splitOnByte_no_sep (sep : Nat) (p : ByteStr) (hp : ∀ x ∈ p, x ≠ sep) :
    splitOnByte sep p = [p] := by
  induction p with
  | nil => rfl
  | cons b t ih =>
    have hb : b ≠ sep := hp b (List.mem_cons_self b t)
    have ht : ∀ x ∈ t, x ≠ sep := fun x hx => hp x (List.mem_cons_of_mem b hx)
    rw [splitOnByte, ih ht]
    simp [beq_iff_eq, hb]

/-- Splitting peels off a separator-free prefix before a separator. -/
theorem splitOnByte_append (sep : Nat) (p rest : ByteStr) (hp : ∀ x ∈ p, x ≠ sep) :
    splitOnByte sep (p ++ sep :: rest) = p :: splitOnByte sep rest := by
  induction p with
  | nil =>
    simp only [List.nil_append]
    rw [splitOnByte]
    cases h : splitOnByte sep rest with
    | nil => exact absurd h (splitOnByte_ne_nil sep rest)
    | cons hd r => simp
  | cons b t ih =>
    have hb : b ≠ sep := hp b (List.mem_cons_self b t)
    have ht : ∀ x ∈ t, x ≠ sep := fun x hx => hp x (List.mem_cons_of_mem b hx)
    simp only [List.cons_append]
    rw [splitOnByte, ih ht]
    simp [beq_iff_eq, hb]

/-- A `joinSep` of a nonempty list starts with its first element. -/
theorem joinSep_cons_head (sep : Nat) (x : ByteStr) (xs : List ByteStr) :
    ∃ suffix, joinSep sep (x :: xs) = x ++ suffix := by
  cases xs with
  | nil => exact ⟨[], by simp [joinSep]⟩
  | cons q qs => exact ⟨sep :: joinSep sep (q :: qs), rfl⟩

/-- An encoded pair is nonempty (it contains its `=`). -/
theorem encodePair_ne_nil (p : ByteStr × ByteStr) : encodePair p ≠ [] := by
  simp [encodePair]

/-- An encoded pair contains no `&` (38). -/
theorem encodePair_sep_free (p : ByteStr × ByteStr) :
    ∀ x ∈ encodePair p, x ≠ 38 := by
  intro x hx
  rw [encodePair] at hx
  rcases List.mem_append.mp hx with h | h
  · exact (queryEscape_sep_free p.1 x h).1
  · rcases List.mem_cons.mp h with h | h
    · subst h; decide
    · exact (queryEscape_sep_free p.2 x h).1

/-- Splitting inverts joining for nonempty, separator-free parts. -/
theorem splitOnByte_joinSep (sep : Nat) :
    ∀ parts : List ByteStr, parts ≠ [] →
      (∀ part ∈ parts, ∀ x ∈ part, x ≠ sep) →
      splitOnByte sep (joinSep sep parts) = parts := by
  intro parts
  induction parts with
  | nil => intro h _; exact absurd rfl h
  | cons p ps ih =>
    intro _ hfree
    cases ps with
    | nil => exact splitOnByte_no_sep sep p (hfree p (List.mem_cons_self p []))
    | cons q qs =>
      show splitOnByte sep (p ++ sep :: joinSep sep (q :: qs)) = p :: q :: qs
      rw [splitOnByte_append sep p (joinSep sep (q :: qs))
        (hfree p (List.mem_cons_self p (q :: qs)))]
      rw [ih (by simp) (fun part hp x hx => hfree part (List.mem_cons_of_mem p hp) x hx)]

/-- `parsePair` inverts `encodePair` on genuine byte strings. -/
theorem parsePair_encodePair (p : ByteStr × ByteStr)
    (h1 : ∀ b ∈ p.1, b < 256) (h2 : ∀ b ∈ p.2, b < 256) :
    parsePair (encodePair p) = some p := by
  have hcut : cutEq (encodePair p) = (queryEscape p.1, queryEscape p.2) := by
    rw [encodePair]
    exact cutEq_append (queryEscape p.1) (queryEscape p.2)
      (fun x hx => (queryEscape_sep_free p.1 x hx).2)
  rw [parsePair.eq_def, hcut]
  simp [queryUnescape_escape p.1 h1, queryUnescape_escape p.2 h2]

/-- `parsePairs` inverts mapping `encodePair` on genuine byte strings. -/
theorem parsePairs_map_encodePair :
    ∀ l : List (ByteStr × ByteStr),
      (∀ p ∈ l, (∀ b ∈ p.1, b < 256) ∧ (∀ b ∈ p.2, b < 256)) →
      parsePairs (l.map encodePair) = some l := by
  intro l
  induction l with
  | nil => intro _; rfl
  | cons p ps ih =>
    intro hv
    have hp := hv p (List.mem_cons_self p ps)
    rw [List.map_cons, parsePairs.eq_def]
    simp [parsePair_encodePair p hp.1 hp.2,
      ih (fun q hq => hv q (List.mem_cons_of_mem p hq))]

/-- `ParseQuery` inverts `Values.Encode`, producing the key-sorted pair
list. -/
theorem parseQuery_valuesEncode (l : List (ByteStr × ByteStr))
    (hv : ∀ p ∈ l, (∀ b ∈ p.1, b < 256) ∧ (∀ b ∈ p.2, b < 256)) :
    parseQuery (valuesEncode l) = some (sortPairs l) := by
  have hvs : ∀ p ∈ sortPairs l, (∀ b ∈ p.1, b < 256) ∧ (∀ b ∈ p.2, b < 256) :=
    fun p hp => hv p ((sortPairs_perm l).subset hp)
  rw [valuesEncode]
  cases hsp : sortPairs l with
  | nil => rfl
  | cons p ps =>
    rw [List.map_cons]
    have hene := encodePair_ne_nil p
    rcases joinSep_cons_head 38 (encodePair p) (ps.map encodePair) with ⟨suffix, hsuf⟩
    have hempty : (joinSep 38 (encodePair p :: ps.map encodePair)).isEmpty = false := by
      rw [hsuf]
      cases hq : encodePair p with
      | nil => exact absurd hq hene
      | cons a bb => simp
    have hfree : ∀ part ∈ encodePair p :: ps.map encodePair, ∀ x ∈ part, x ≠ 38 := by
      intro part hpart
      rcases List.mem_cons.mp hpart with h | h
      · subst h; exact encodePair_sep_free p
      · rcases List.mem_map.mp h with ⟨pr, hpr, rfl⟩
        exact encodePair_sep_free pr
    rw [parseQuery, if_neg (by simp [hempty])]
    rw [splitOnByte_joinSep 38 (encodePair p :: ps.map encodePair) (by simp) hfree]
    have hmap := parsePairs_map_encodePair (p :: ps) (hsp ▸ hvs)
    rw [List.map_cons] at hmap
    exact hmap

/-- C6: `WithParams` stores the deterministic standard URL encoding of the
mapping — permutations of the same unique-keyed pairs (a Go map's possible
iteration orders) encode identically — and standard query decoding of the
stored string returns exactly the original key/value pairs, up to
order. -/
theorem withParams_deterministic_roundtrip
    (params params2 : List (ByteStr × ByteStr)) (r : HttpRequests)
    (hnd : (params.map Prod.fst).Nodup) (hperm : params.Perm params2)
    (hval : ∀ p ∈ params, (∀ b ∈ p.1, b < 256) ∧ (∀ b ∈ p.2, b < 256)) :
    WithParams params r = .ok { r with Params := valuesEncode params } ∧
    valuesEncode params2 = valuesEncode params ∧
    ∃ decoded, parseQuery (valuesEncode params) = some decoded ∧
      decoded.Perm params := by
  refine ⟨rfl, valuesEncode_perm_invariant params params2 hperm hnd, ?_⟩
  exact ⟨sortPairs params, parseQuery_valuesEncode params hval, sortPairs_perm params⟩

/-- C6 witness at the mapping `{"a": "1", "b": "2"}` (bytes 97/49, 98/50)
against its reversed enumeration. -/
theorem withParams_deterministic_roundtrip_witness :
    valuesEncode [([98], [50]), ([97], [49])] =
      valuesEncode [([97], [49]), ([98], [50])] ∧
    ∃ decoded, parseQuery (valuesEncode [([97], [49]), ([98], [50])]) = some decoded ∧
      decoded.Perm [([97], [49]), ([98], [50])] := by
  have h := withParams_deterministic_roundtrip [([97], [49]), ([98], [50])]
    [([98], [50]), ([97], [49])] sampleDescriptor (by decide) (by decide) (by decide)
  exact ⟨h.2.1, h.2.2⟩

end Nhr
